import Mathlib

/-!
Verification of the quantum-magnetic-navigation specification.

The repository ships design documents and an interface description for a
Python package (`qmag_nav`); the package's own source files are not part of
the checked-in tree.  The definitions below are therefore a shallow
embedding modelled from the specification's words: real-valued quantities
are represented by exact rationals (`ℚ`), fallible operations return
`Except`/`Option`, and the "NaN" produced by nodata cells is represented by
`Option.none` propagating through lookups.
-/

namespace QmagNav

/-- Modelled from the spec: a latitude/longitude pair (degrees). -/
structure LatLon where
  lat : ℚ
  lon : ℚ
  deriving DecidableEq

/-- Modelled from the spec: `MapHeader` describes a regular lat/lon grid
whose cell `(i,j)` is centred at `(lat0 + i·dlat, lon0 + j·dlon)`. -/
structure MapHeader where
  nrows : ℕ
  ncols : ℕ
  lat0 : ℚ
  lon0 : ℚ
  dlat : ℚ
  dlon : ℚ

/-- Modelled from the spec: a loaded magnetic map exposes its header and a
random-access cell accessor; a nodata (sentinel) cell is `none` and stands
for the NaN the loader produces for sentinel cells. -/
structure MagneticMap where
  header : MapHeader
  cell : ℕ → ℕ → Option ℚ

/-- Modelled from the spec: `OutOfMapError` carries the offending
`(lat,lon)` of an out-of-bounds query. -/
structure OutOfMapError where
  lat : ℚ
  lon : ℚ
  deriving DecidableEq

instance {ε α : Type} [DecidableEq ε] [DecidableEq α] : DecidableEq (Except ε α) :=
  fun a b =>
    match a, b with
    | .ok x, .ok y =>
        if h : x = y then .isTrue (by rw [h]) else .isFalse (by simp [h])
    | .error x, .error y =>
        if h : x = y then .isTrue (by rw [h]) else .isFalse (by simp [h])
    | .ok _, .error _ => .isFalse (by simp)
    | .error _, .ok _ => .isFalse (by simp)

/-- Fractional row index `r = (lat − lat0)/dlat`. -/
def rowFrac (m : MagneticMap) (lat : ℚ) : ℚ :=
  (lat - m.header.lat0) / m.header.dlat

/-- Fractional column index `c = (lon − lon0)/dlon`. -/
def colFrac (m : MagneticMap) (lon : ℚ) : ℚ :=
  (lon - m.header.lon0) / m.header.dlon

/-- `r0 = ⌊r⌋`. -/
def row0 (m : MagneticMap) (lat : ℚ) : ℤ := ⌊rowFrac m lat⌋

/-- `c0 = ⌊c⌋`. -/
def col0 (m : MagneticMap) (lon : ℚ) : ℤ := ⌊colFrac m lon⌋

/-- `fr = r − r0`. -/
def rowRem (m : MagneticMap) (lat : ℚ) : ℚ := rowFrac m lat - row0 m lat

/-- `fc = c − c0`. -/
def colRem (m : MagneticMap) (lon : ℚ) : ℚ := colFrac m lon - col0 m lon

/-- Modelled from the spec: a query is in-bounds iff the bilinear stencil
fits (`0 ≤ r0`, `r0+1 < nrows`, and the same for columns). -/
def InBounds (m : MagneticMap) (lat lon : ℚ) : Prop :=
  0 ≤ row0 m lat ∧ row0 m lat + 1 < m.header.nrows ∧
    0 ≤ col0 m lon ∧ col0 m lon + 1 < m.header.ncols

instance (m : MagneticMap) (lat lon : ℚ) : Decidable (InBounds m lat lon) :=
  decidable_of_iff
    (0 ≤ row0 m lat ∧ row0 m lat + 1 < m.header.nrows ∧
      0 ≤ col0 m lon ∧ col0 m lon + 1 < m.header.ncols) Iff.rfl

/-- Modelled from the spec: the bilinear weighted sum of the four corner
cells `(r0,c0), (r0,c0+1), (r0+1,c0), (r0+1,c0+1)` with weights
`(1−fr)(1−fc), (1−fr)fc, fr(1−fc), fr·fc`; if any stencil cell is nodata
(NaN) the result is NaN, i.e. `none`. -/
def bilinearAt (m : MagneticMap) (i j : ℕ) (fr fc : ℚ) : Option ℚ :=
  match m.cell i j, m.cell i (j + 1), m.cell (i + 1) j, m.cell (i + 1) (j + 1) with
  | some v00, some v01, some v10, some v11 =>
      some ((1 - fr) * (1 - fc) * v00 + (1 - fr) * fc * v01 +
        fr * (1 - fc) * v10 + fr * fc * v11)
  | _, _, _, _ => none

/-- Modelled from the spec: `MagneticMap.interpolate (lat, lon)` with the
(required) bilinear method: map to fractional indices, check the edge
policy, and either evaluate the bilinear stencil (`.ok`, with `none`
standing for a NaN result from nodata cells) or fail with `OutOfMapError`
carrying the offending coordinates. -/
def MagneticMap.interpolate (m : MagneticMap) (lat lon : ℚ) :
    Except OutOfMapError (Option ℚ) :=
  if InBounds m lat lon then
    .ok (bilinearAt m (row0 m lat).toNat (col0 m lon).toNat
      (rowRem m lat) (colRem m lon))
  else
    .error ⟨lat, lon⟩

/-- The 5×5 test grid of the spec: `lat0 = 0`, `lon0 = 0`, `dlat = dlon = 1`,
cell values `v[i][j] = 10·i + j`. -/
def grid5 : MagneticMap where
  header := ⟨5, 5, 0, 0, 1, 1⟩
  cell := fun i j => if i < 5 ∧ j < 5 then some ((10 * i + j : ℕ) : ℚ) else none

lemma grid5_row0 (lat : ℚ) : row0 grid5 lat = ⌊lat⌋ := by
  simp [row0, rowFrac, grid5]

lemma grid5_col0 (lon : ℚ) : col0 grid5 lon = ⌊lon⌋ := by
  simp [col0, colFrac, grid5]

lemma grid5_lookup_center : grid5.interpolate 2 3 = .ok (some 23) := by
  have hr : row0 grid5 2 = 2 := by rw [grid5_row0]; norm_num
  have hc : col0 grid5 3 = 3 := by rw [grid5_col0]; norm_num
  have hin : InBounds grid5 2 3 := by
    rw [InBounds, hr, hc]; norm_num [grid5]
  simp only [MagneticMap.interpolate, if_pos hin]
  rw [rowRem, colRem, rowFrac, colFrac, hr, hc]
  simp [bilinearAt, grid5]
  norm_num

lemma grid5_lookup_mid : grid5.interpolate (5/2) (7/2) = .ok (some (57/2)) := by
  have hr : row0 grid5 (5/2) = 2 := by rw [grid5_row0]; norm_num
  have hc : col0 grid5 (7/2) = 3 := by rw [grid5_col0]; norm_num
  have hin : InBounds grid5 (5/2) (7/2) := by
    rw [InBounds, hr, hc]; norm_num [grid5]
  simp only [MagneticMap.interpolate, if_pos hin]
  rw [rowRem, colRem, rowFrac, colFrac, hr, hc]
  simp [bilinearAt, grid5]
  norm_num

lemma grid5_oob : grid5.interpolate (-1/10) 0 = .error ⟨-1/10, 0⟩ := by
  have hr : row0 grid5 (-1/10) = -1 := by rw [grid5_row0]; norm_num
  have hin : ¬ InBounds grid5 (-1/10) 0 := by
    rw [InBounds, hr]; norm_num
  simp [MagneticMap.interpolate, hin]

end QmagNav

namespace QmagNav

/-- C1: for every in-bounds query, bilinear interpolation returns the
weighted sum of the four corner cells with weights
`(1−fr)(1−fc), (1−fr)fc, fr(1−fc), fr·fc`; on the 5×5 test grid,
`interpolate (2, 3)` returns exactly `23` and `interpolate (2.5, 3.5)`
returns exactly `28.5`. -/
theorem bilinear_weighted_sum_and_seed_lookups :
    (∀ (m : MagneticMap) (lat lon : ℚ) (v00 v01 v10 v11 : ℚ),
      InBounds m lat lon →
      m.cell (row0 m lat).toNat (col0 m lon).toNat = some v00 →
      m.cell (row0 m lat).toNat ((col0 m lon).toNat + 1) = some v01 →
      m.cell ((row0 m lat).toNat + 1) (col0 m lon).toNat = some v10 →
      m.cell ((row0 m lat).toNat + 1) ((col0 m lon).toNat + 1) = some v11 →
      m.interpolate lat lon =
        .ok (some ((1 - rowRem m lat) * (1 - colRem m lon) * v00 +
          (1 - rowRem m lat) * colRem m lon * v01 +
          rowRem m lat * (1 - colRem m lon) * v10 +
          rowRem m lat * colRem m lon * v11))) ∧
    grid5.interpolate 2 3 = .ok (some 23) ∧
    grid5.interpolate (5/2) (7/2) = .ok (some (57/2)) := by
  refine ⟨?_, grid5_lookup_center, grid5_lookup_mid⟩
  intro m lat lon v00 v01 v10 v11 hin h00 h01 h10 h11
  simp [MagneticMap.interpolate, hin, bilinearAt, h00, h01, h10, h11]

/-- C4: interpolation fails, with an `OutOfMapError` carrying exactly the
offending coordinates, precisely on the queries where the bilinear stencil
does not fit in the grid; in particular `interpolate (-0.1, 0)` on the 5×5
test grid fails with `OutOfMapError (-0.1, 0)`. -/
theorem interpolate_out_of_map_iff :
    (∀ (m : MagneticMap) (lat lon : ℚ),
      ¬ InBounds m lat lon ↔ m.interpolate lat lon = .error ⟨lat, lon⟩) ∧
    (∀ (m : MagneticMap) (lat lon : ℚ) (e : OutOfMapError),
      m.interpolate lat lon = .error e → e = ⟨lat, lon⟩) ∧
    grid5.interpolate (-1/10) 0 = .error ⟨-1/10, 0⟩ := by
  refine ⟨fun m lat lon => ?_, fun m lat lon e he => ?_, grid5_oob⟩
  · constructor
    · intro h; simp [MagneticMap.interpolate, h]
    · intro h hin; simp [MagneticMap.interpolate, hin] at h
  · by_cases hin : InBounds m lat lon
    · simp [MagneticMap.interpolate, hin] at he
    · simp [MagneticMap.interpolate, hin] at he
      exact he.symm

end QmagNav

namespace QmagNav

open Matrix

/-- 4×4 rational matrices model the EKF covariance and transition matrices. -/
abbrev Mat4 := Matrix (Fin 4) (Fin 4) ℚ

/-- Length-4 rational vectors model the EKF state vector. -/
abbrev Vec4 := Fin 4 → ℚ

/-- Modelled from the spec: `DomainError` (here for the one trigger the EKF
claims exercise, a negative `dt`). -/
inductive DomainError where
  | negativeDt
  deriving DecidableEq

/-- Modelled from the spec: the EKF's tunable configuration — process-noise
diagonal entries `qp, qv`, measurement variance `R`, finite-difference step
`hstep`, ill-conditioning threshold `eps`, and reset covariance defaults
`p0, v0`. -/
structure EKFConfig where
  qp : ℚ
  qv : ℚ
  R : ℚ
  hstep : ℚ
  eps : ℚ
  p0 : ℚ
  v0 : ℚ

/-- Physically meaningful configurations: variances are non-negative. -/
def EKFConfig.Valid (cfg : EKFConfig) : Prop :=
  0 ≤ cfg.qp ∧ 0 ≤ cfg.qv ∧ 0 ≤ cfg.R ∧ 0 ≤ cfg.p0 ∧ 0 ≤ cfg.v0

/-- Modelled from the spec: EKF state `x = [lat, lon, vlat, vlon]` with
4×4 covariance `P`. -/
structure EKFState where
  x : Vec4
  P : Mat4

/-- The nilpotent part of the constant-velocity transition. -/
def Nmat : Mat4 := !![0,0,1,0; 0,0,0,1; 0,0,0,0; 0,0,0,0]

/-- Transition `F = I + dt·[[0,0,1,0],[0,0,0,1],[0,0,0,0],[0,0,0,0]]`. -/
def Fmat (dt : ℚ) : Mat4 := 1 + dt • Nmat

/-- Process noise `Q = diag(qp, qp, qv, qv)`. -/
def Qmat (cfg : EKFConfig) : Mat4 := Matrix.diagonal ![cfg.qp, cfg.qp, cfg.qv, cfg.qv]

/-- Modelled from the spec: `reset(lat0, lon0)` re-initializes
`x = [lat0, lon0, 0, 0]` and `P = diag(p0, p0, v0, v0)`. -/
def resetState (cfg : EKFConfig) (lat lon : ℚ) : EKFState :=
  ⟨![lat, lon, 0, 0], Matrix.diagonal ![cfg.p0, cfg.p0, cfg.v0, cfg.v0]⟩

/-- Modelled from the spec: `predict(dt)`: `dt < 0` fails with
`DomainError` (and, the model being functional, no state is produced);
otherwise `x ← F·x`, `P ← F·P·Fᵀ + Q·dt`. -/
def predict (cfg : EKFConfig) (dt : ℚ) (s : EKFState) : Except DomainError EKFState :=
  if dt < 0 then .error .negativeDt
  else .ok ⟨(Fmat dt).mulVec s.x, Fmat dt * s.P * (Fmat dt)ᵀ + dt • Qmat cfg⟩

/-- Measurement model `h(x) = map.interpolate(lat, lon)`:
`none` when the lookup is out of bounds or yields NaN (a nodata stencil). -/
def hmeas (m : MagneticMap) (lat lon : ℚ) : Option ℚ :=
  match m.interpolate lat lon with
  | .ok (some v) => some v
  | _ => none

/-- Modelled from the spec: the Jacobian `H = [∂h/∂lat, ∂h/∂lon, 0, 0]` by
central finite differences with step `hstep`; `none` when either side of
either difference is out of bounds or NaN. -/
def Hvec (cfg : EKFConfig) (m : MagneticMap) (lat lon : ℚ) : Option Vec4 :=
  match hmeas m (lat + cfg.hstep) lon, hmeas m (lat - cfg.hstep) lon,
      hmeas m lat (lon + cfg.hstep), hmeas m lat (lon - cfg.hstep) with
  | some latP, some latM, some lonP, some lonM =>
      some ![(latP - latM) / (2 * cfg.hstep), (lonP - lonM) / (2 * cfg.hstep), 0, 0]
  | _, _, _, _ => none

/-- Clamp of the covariance diagonal to `≥ 0`. -/
def clampDiag (P : Mat4) : Mat4 :=
  Matrix.of fun i j => if i = j then max (P i j) 0 else P i j

/-- Re-symmetrization `P ← (P + Pᵀ)/2`. -/
def symmetrize (P : Mat4) : Mat4 := (2 : ℚ)⁻¹ • (P + Pᵀ)

/-- Joseph-form covariance write `(I − K·H)·P·(I − K·H)ᵀ + K·R·Kᵀ`. -/
def josephP (Rv : ℚ) (P : Mat4) (H K : Vec4) : Mat4 :=
  (1 - vecMulVec K H) * P * (1 - vecMulVec K H)ᵀ + Rv • vecMulVec K K

/-- Modelled from the spec: `update(z_obs, map)`.  The centre lookup or the
finite-difference Jacobian failing (out of bounds / NaN), or `S < eps`,
skips the update (state unchanged, no innovation reported, so quality 0);
otherwise the Kalman update runs with the Joseph-form covariance write,
re-symmetrization and diagonal clamping, and `(y, S)` is reported for the
quality computation. -/
def update (cfg : EKFConfig) (m : MagneticMap) (z : ℚ) (s : EKFState) :
    EKFState × Option (ℚ × ℚ) :=
  match hmeas m (s.x 0) (s.x 1), Hvec cfg m (s.x 0) (s.x 1) with
  | some h0, some H =>
      let S := H ⬝ᵥ s.P.mulVec H + cfg.R
      if S < cfg.eps then (s, none)
      else
        let y := z - h0
        let K := S⁻¹ • s.P.mulVec H
        (⟨s.x + y • K, clampDiag (symmetrize (josephP cfg.R s.P H K))⟩, some (y, S))
  | _, _ => (s, none)

/-- Modelled from the spec: quality in `[0,1]` derived from
`exp(−y²/(2·S))`, and `0` for a skipped cycle. -/
noncomputable def quality : Option (ℚ × ℚ) → ℝ
  | none => 0
  | some (y, S) => Real.exp (-(y : ℝ) ^ 2 / (2 * (S : ℝ)))

/-- Modelled from the spec: one `observe` cycle of the navigation service:
predict, then update against the map. -/
def observe (cfg : EKFConfig) (m : MagneticMap) (z dt : ℚ) (s : EKFState) :
    Except DomainError (EKFState × Option (ℚ × ℚ)) :=
  (predict cfg dt s).map (update cfg m z)

/-- The filter states reachable through the public operations: a `reset`,
or a successful `predict` or `update` from a reachable state. -/
inductive Reachable (cfg : EKFConfig) : EKFState → Prop where
  | reset (lat lon : ℚ) : Reachable cfg (resetState cfg lat lon)
  | predictStep {s s' : EKFState} (dt : ℚ) :
      Reachable cfg s → predict cfg dt s = .ok s' → Reachable cfg s'
  | updateStep {s : EKFState} (m : MagneticMap) (z : ℚ) :
      Reachable cfg s → Reachable cfg (update cfg m z s).1

/-- Positive semidefiniteness (symmetry included) over `ℚ`. -/
def IsPSD {n : Type*} [Fintype n] (M : Matrix n n ℚ) : Prop :=
  Mᵀ = M ∧ ∀ v : n → ℚ, 0 ≤ v ⬝ᵥ M.mulVec v

lemma IsPSD.diag_nonneg {n : Type*} [Fintype n] [DecidableEq n]
    {M : Matrix n n ℚ} (h : IsPSD M) (i : n) : 0 ≤ M i i := by
  have := h.2 (Pi.single i 1)
  simpa [Matrix.mulVec_single, Matrix.single_dotProduct] using this

lemma IsPSD.add {n : Type*} [Fintype n] {M N : Matrix n n ℚ}
    (hM : IsPSD M) (hN : IsPSD N) : IsPSD (M + N) := by
  refine ⟨by rw [Matrix.transpose_add, hM.1, hN.1], fun v => ?_⟩
  rw [Matrix.add_mulVec, Matrix.dotProduct_add]
  exact add_nonneg (hM.2 v) (hN.2 v)

lemma IsPSD.smul {n : Type*} [Fintype n] {M : Matrix n n ℚ}
    (hM : IsPSD M) {c : ℚ} (hc : 0 ≤ c) : IsPSD (c • M) := by
  refine ⟨by rw [Matrix.transpose_smul, hM.1], fun v => ?_⟩
  rw [Matrix.smul_mulVec_assoc, Matrix.dotProduct_smul]
  exact mul_nonneg hc (hM.2 v)

lemma IsPSD.conj {n : Type*} [Fintype n] {M : Matrix n n ℚ}
    (hM : IsPSD M) (A : Matrix n n ℚ) : IsPSD (A * M * Aᵀ) := by
  refine ⟨?_, fun v => ?_⟩
  · rw [Matrix.transpose_mul, Matrix.transpose_mul, Matrix.transpose_transpose,
      hM.1, Matrix.mul_assoc]
  · rw [← Matrix.mulVec_mulVec, ← Matrix.mulVec_mulVec,
      Matrix.dotProduct_mulVec, ← Matrix.mulVec_transpose]
    exact hM.2 (Aᵀ.mulVec v)

lemma IsPSD.diagonal {n : Type*} [Fintype n] [DecidableEq n]
    (d : n → ℚ) (hd : ∀ i, 0 ≤ d i) : IsPSD (Matrix.diagonal d) := by
  refine ⟨Matrix.diagonal_transpose d, fun v => ?_⟩
  rw [Matrix.dotProduct]
  refine Finset.sum_nonneg fun i _ => ?_
  rw [Matrix.mulVec_diagonal]
  calc (0:ℚ) ≤ d i * (v i * v i) := mul_nonneg (hd i) (mul_self_nonneg _)
    _ = v i * (d i * v i) := by ring

lemma IsPSD.outer_self {n : Type*} [Fintype n] (K : n → ℚ) :
    IsPSD (vecMulVec K K) := by
  constructor
  · ext i j
    simp [Matrix.vecMulVec_apply, mul_comm]
  · intro v
    have hmv : (vecMulVec K K).mulVec v = fun i => K i * (K ⬝ᵥ v) := by
      funext i
      simp [Matrix.mulVec, Matrix.vecMulVec_apply, Matrix.dotProduct,
        Finset.mul_sum, mul_assoc]
    rw [hmv]
    have h2 : v ⬝ᵥ (fun i => K i * (K ⬝ᵥ v)) = (v ⬝ᵥ K) * (K ⬝ᵥ v) := by
      simp only [Matrix.dotProduct, Finset.sum_mul]
      exact Finset.sum_congr rfl fun i _ => (mul_assoc _ _ _).symm
    rw [h2, Matrix.dotProduct_comm]
    exact mul_self_nonneg _

lemma clampDiag_of_psd {P : Mat4} (h : IsPSD P) : clampDiag P = P := by
  ext i j
  rw [clampDiag]
  by_cases hij : i = j
  · subst hij
    simp [max_eq_left (h.diag_nonneg i)]
  · simp [hij]

lemma symmetrize_of_symm {P : Mat4} (h : Pᵀ = P) : symmetrize P = P := by
  rw [symmetrize, h, ← two_smul ℚ P, smul_smul]
  norm_num

lemma josephP_psd {Rv : ℚ} (hR : 0 ≤ Rv) {P : Mat4} (hP : IsPSD P) (H K : Vec4) :
    IsPSD (josephP Rv P H K) :=
  (hP.conj _).add ((IsPSD.outer_self K).smul hR)

lemma clamp_symm_joseph_psd {Rv : ℚ} (hR : 0 ≤ Rv) {P : Mat4} (hP : IsPSD P)
    (H K : Vec4) : IsPSD (clampDiag (symmetrize (josephP Rv P H K))) := by
  have hj := josephP_psd hR hP H K
  rw [symmetrize_of_symm hj.1, clampDiag_of_psd hj]
  exact hj

lemma update_psd (cfg : EKFConfig) (hR : 0 ≤ cfg.R) (m : MagneticMap) (z : ℚ)
    (s : EKFState) (hP : IsPSD s.P) : IsPSD (update cfg m z s).1.P := by
  rw [update]
  cases h0 : hmeas m (s.x 0) (s.x 1) <;> cases hH : Hvec cfg m (s.x 0) (s.x 1)
  · exact hP
  · exact hP
  · exact hP
  · dsimp only
    split_ifs with hS
    · exact hP
    · exact clamp_symm_joseph_psd hR hP _ _

lemma predict_psd (cfg : EKFConfig) (hcfg : cfg.Valid) (dt : ℚ) (s s' : EKFState)
    (h : predict cfg dt s = .ok s') (hP : IsPSD s.P) : IsPSD s'.P := by
  obtain ⟨hqp, hqv, hRv, hp0, hv0⟩ := hcfg
  rw [predict] at h
  by_cases hdt : dt < 0
  · rw [if_pos hdt] at h
    cases h
  · rw [if_neg hdt] at h
    cases h
    push_neg at hdt
    refine (hP.conj (Fmat dt)).add (IsPSD.smul ?_ hdt)
    rw [Qmat]
    refine IsPSD.diagonal _ fun i => ?_
    fin_cases i <;> simp_all

lemma reachable_psd (cfg : EKFConfig) (hcfg : cfg.Valid) (s : EKFState)
    (hs : Reachable cfg s) : IsPSD s.P := by
  induction hs with
  | reset lat lon =>
      refine IsPSD.diagonal _ fun i => ?_
      fin_cases i <;> simp_all [resetState, hcfg.2.2.2.1, hcfg.2.2.2.2]
  | predictStep dt hr hok ih => exact predict_psd cfg hcfg _ _ _ hok ih
  | updateStep m z hr ih => exact update_psd cfg hcfg.2.2.1 m z _ ih

/-- A concrete valid configuration used to instantiate the theorems:
`qp = qv = R = p0 = v0 = 1`, `hstep = 1e-5`, `eps = 1e-12`. -/
def cfgW : EKFConfig := ⟨1, 1, 1, 1/100000, 1/1000000000000, 1, 1⟩

lemma Hvec_eq_none (cfg : EKFConfig) (m : MagneticMap) (lat lon : ℚ)
    (h : hmeas m (lat + cfg.hstep) lon = none ∨ hmeas m (lat - cfg.hstep) lon = none ∨
      hmeas m lat (lon + cfg.hstep) = none ∨ hmeas m lat (lon - cfg.hstep) = none) :
    Hvec cfg m lat lon = none := by
  rw [Hvec]
  cases h1 : hmeas m (lat + cfg.hstep) lon <;>
    cases h2 : hmeas m (lat - cfg.hstep) lon <;>
    cases h3 : hmeas m lat (lon + cfg.hstep) <;>
    cases h4 : hmeas m lat (lon - cfg.hstep) <;>
    simp_all

lemma update_skip (cfg : EKFConfig) (m : MagneticMap) (z : ℚ) (s : EKFState)
    (h : Hvec cfg m (s.x 0) (s.x 1) = none) : update cfg m z s = (s, none) := by
  rw [update, h]
  cases hmeas m (s.x 0) (s.x 1) <;> rfl

end QmagNav

namespace QmagNav

/-- C2: after every call to `update`, starting from any reachable filter
state and for every observation and map, the covariance `P` is exactly
symmetric (hence `max |P − Pᵀ| = 0 ≤ 1e-12`) and every diagonal entry of
`P` is non-negative. -/
theorem update_cov_symmetric_nonneg (cfg : EKFConfig) (hcfg : cfg.Valid)
    (s : EKFState) (hs : Reachable cfg s) (m : MagneticMap) (z : ℚ) :
    (∀ i j, (update cfg m z s).1.P i j = (update cfg m z s).1.P j i) ∧
      ∀ i, 0 ≤ (update cfg m z s).1.P i i := by
  have h := update_psd cfg hcfg.2.2.1 m z s (reachable_psd cfg hcfg s hs)
  exact ⟨fun i j => (congrFun (congrFun h.1 i) j).symm, h.diag_nonneg⟩

/-- Witness for C2 at a concrete configuration, map, observation and
reachable state (the post-reset state). -/
theorem update_cov_symmetric_nonneg_witness :
    (update cfgW grid5 0 (resetState cfgW 0 0)).1.P 0 1 =
      (update cfgW grid5 0 (resetState cfgW 0 0)).1.P 1 0 ∧
    0 ≤ (update cfgW grid5 0 (resetState cfgW 0 0)).1.P 0 0 := by
  have h := update_cov_symmetric_nonneg cfgW
    (by refine ⟨?_, ?_, ?_, ?_, ?_⟩ <;> norm_num [cfgW])
    (resetState cfgW 0 0) (Reachable.reset 0 0) grid5 0
  exact ⟨h.1 0 1, h.2 0⟩

/-- C8: `predict` fails with `DomainError` on every `dt < 0` (the
functional model produces no successor state, so no state mutation
occurs), and `predict (dt = 0)` is a no-op returning the state unchanged,
`x` and `P` both exactly equal. -/
theorem predict_negative_dt_and_zero_noop (cfg : EKFConfig) (s : EKFState) :
    (∀ dt : ℚ, dt < 0 → predict cfg dt s = .error .negativeDt) ∧
      predict cfg 0 s = .ok s := by
  constructor
  · intro dt hdt
    rw [predict, if_pos hdt]
  · rw [predict, if_neg (lt_irrefl 0)]
    have hF : Fmat 0 = 1 := by rw [Fmat]; simp
    cases s with
    | mk x P => simp [hF]

/-- C3: if any side of the central finite difference used by the
measurement Jacobian is out of bounds or NaN, `update` is skipped: the
state is unchanged (in particular `x` keeps its post-predict value after
an `observe` cycle) and the reported quality is `0`; the failure is not
propagated (`observe` still returns `.ok`). -/
theorem update_skipped_on_bad_lookup (cfg : EKFConfig) (m : MagneticMap)
    (z : ℚ) (s1 : EKFState)
    (hbad : hmeas m (s1.x 0 + cfg.hstep) (s1.x 1) = none ∨
      hmeas m (s1.x 0 - cfg.hstep) (s1.x 1) = none ∨
      hmeas m (s1.x 0) (s1.x 1 + cfg.hstep) = none ∨
      hmeas m (s1.x 0) (s1.x 1 - cfg.hstep) = none) :
    update cfg m z s1 = (s1, none) ∧ quality (update cfg m z s1).2 = 0 ∧
      ∀ (dt : ℚ) (s : EKFState), predict cfg dt s = .ok s1 →
        observe cfg m z dt s = .ok (s1, none) := by
  have hu := update_skip cfg m z s1 (Hvec_eq_none cfg m (s1.x 0) (s1.x 1) hbad)
  refine ⟨hu, by rw [hu]; simp [quality], fun dt s hp => ?_⟩
  rw [observe, hp]
  simp [Except.map, hu]

/-- Witness for C3: on the 5×5 grid a state at latitude/longitude 10 is
out of the map, so the finite-difference lookup fails and the update is
skipped with quality 0. -/
theorem update_skipped_on_bad_lookup_witness :
    update cfgW grid5 0 (resetState cfgW 10 10) = (resetState cfgW 10 10, none) ∧
      quality (update cfgW grid5 0 (resetState cfgW 10 10)).2 = 0 := by
  have hx0 : (resetState cfgW 10 10).x 0 + cfgW.hstep = 1000001/100000 := by
    norm_num [resetState, cfgW]
  have hx1 : (resetState cfgW 10 10).x 1 = 10 := by
    norm_num [resetState]
  have hr : row0 grid5 (1000001/100000) = 10 := by
    rw [grid5_row0]; norm_num
  have hnb : ¬ InBounds grid5 (1000001/100000) 10 := by
    rw [InBounds, hr]; norm_num [grid5]
  have hint : grid5.interpolate (1000001/100000) 10 = .error ⟨1000001/100000, 10⟩ := by
    simp [MagneticMap.interpolate, hnb]
  have hbad : hmeas grid5 ((resetState cfgW 10 10).x 0 + cfgW.hstep)
      ((resetState cfgW 10 10).x 1) = none := by
    rw [hx0, hx1, hmeas, hint]
  have h := update_skipped_on_bad_lookup cfgW grid5 0 (resetState cfgW 10 10)
    (Or.inl hbad)
  exact ⟨h.1, h.2.1⟩

end QmagNav

namespace QmagNav

lemma quality_some_mem {y S : ℚ} (hS : 0 < S) :
    0 ≤ quality (some (y, S)) ∧ quality (some (y, S)) ≤ 1 := by
  dsimp only [quality]
  constructor
  · exact (Real.exp_pos _).le
  · rw [Real.exp_le_one_iff]
    have h2 : (0:ℝ) < (S:ℝ) := by exact_mod_cast hS
    exact div_nonpos_iff.mpr (Or.inr ⟨neg_nonpos.mpr (sq_nonneg _), by linarith⟩)

lemma update_quality_mem (cfg : EKFConfig) (hε : 0 < cfg.eps) (m : MagneticMap)
    (z : ℚ) (s : EKFState) :
    0 ≤ quality (update cfg m z s).2 ∧ quality (update cfg m z s).2 ≤ 1 := by
  rw [update]
  cases h0 : hmeas m (s.x 0) (s.x 1) <;> cases hH : Hvec cfg m (s.x 0) (s.x 1)
  · simp [quality]
  · simp [quality]
  · simp [quality]
  · dsimp only
    split_ifs with hS
    · simp [quality]
    · push_neg at hS
      exact quality_some_mem (lt_of_lt_of_le hε hS)

/-- Modelled from the spec: the shape of a `POST /estimate` request after
the transport layer: either syntactically malformed JSON, or a parsed
`{lat, lon}` body. -/
inductive EstimateRequest where
  | malformed
  | body (lat lon : ℚ)

/-- The three response shapes the endpoint produces: a 200 payload
`{lat, lon, quality}`, a 400 bad request, or a 503 service unavailable. -/
inductive EstimateResult where
  | ok (lat lon : ℚ) (q : ℝ)
  | badRequest
  | unavailable

/-- HTTP status of a response. -/
def statusOf : EstimateResult → ℕ
  | .ok _ _ _ => 200
  | .badRequest => 400
  | .unavailable => 503

/-- In-range coordinates: `lat ∈ [-90, 90]`, `lon ∈ [-180, 180]`. -/
def ValidLatLon (lat lon : ℚ) : Prop :=
  -90 ≤ lat ∧ lat ≤ 90 ∧ -180 ≤ lon ∧ lon ≤ 180

instance (lat lon : ℚ) : Decidable (ValidLatLon lat lon) :=
  decidable_of_iff (-90 ≤ lat ∧ lat ≤ 90 ∧ -180 ≤ lon ∧ lon ≤ 180) Iff.rfl

/-- Modelled from the spec: the `POST /estimate` handler.  503 whenever the
map is not loaded; 400 on malformed JSON or out-of-range values; otherwise
the body is treated as a position-domain observation (the spec leaves the
exact conversion open: here the expected anomaly at the given position, or
`0` when unavailable, is fed to the filter) and the handler answers 200
with the updated estimate and its quality. -/
noncomputable def postEstimate (cfg : EKFConfig) (mo : Option MagneticMap)
    (s : EKFState) (req : EstimateRequest) : EstimateResult :=
  match mo with
  | none => .unavailable
  | some m =>
    match req with
    | .malformed => .badRequest
    | .body lat lon =>
      if ValidLatLon lat lon then
        let res := update cfg m ((hmeas m lat lon).getD 0) s
        .ok (res.1.x 0) (res.1.x 1) (quality res.2)
      else .badRequest

end QmagNav

namespace QmagNav

/-- C5: the `POST /estimate` contract — status 503 whenever the map is not
loaded; status 400 on malformed JSON and on out-of-range coordinates; and
every success is a 200 whose quality lies in `[0, 1]`. -/
theorem post_estimate_contract (cfg : EKFConfig) (hε : 0 < cfg.eps)
    (mo : Option MagneticMap) (s : EKFState) (req : EstimateRequest) :
    (mo = none → statusOf (postEstimate cfg mo s req) = 503) ∧
    (∀ m, mo = some m → req = .malformed →
      statusOf (postEstimate cfg mo s req) = 400) ∧
    (∀ m lat lon, mo = some m → req = .body lat lon → ¬ ValidLatLon lat lon →
      statusOf (postEstimate cfg mo s req) = 400) ∧
    (∀ lat lon q, postEstimate cfg mo s req = .ok lat lon q →
      statusOf (postEstimate cfg mo s req) = 200 ∧ 0 ≤ q ∧ q ≤ 1) := by
  refine ⟨fun h => by subst h; rfl,
    fun m hm hr => by subst hm; subst hr; rfl,
    fun m lat lon hm hr hnv => by subst hm; subst hr; simp [postEstimate, statusOf, hnv],
    fun lat lon q hok => ?_⟩
  cases mo with
  | none => simp [postEstimate] at hok
  | some m =>
    cases req with
    | malformed => simp [postEstimate] at hok
    | body la lo =>
      rw [postEstimate] at hok ⊢
      by_cases hv : ValidLatLon la lo
      · rw [if_pos hv] at hok ⊢
        dsimp only at hok
        cases hok
        exact ⟨rfl, update_quality_mem cfg hε m ((hmeas m la lo).getD 0) s⟩
      · rw [if_neg hv] at hok
        cases hok

/-- Witness for C5: with the map loaded, a malformed body is answered 400. -/
theorem post_estimate_contract_witness :
    statusOf (postEstimate cfgW (some grid5) (resetState cfgW 0 0) .malformed) = 400 :=
  (post_estimate_contract cfgW (by norm_num [cfgW]) (some grid5)
    (resetState cfgW 0 0) .malformed).2.1 grid5 rfl rfl

end QmagNav

namespace QmagNav

/-- Modelled from the spec: calibration `apply(v) = scale · (v − offset)`. -/
structure CalibrationParams where
  offset : Fin 3 → ℚ
  scale : Matrix (Fin 3) (Fin 3) ℚ

/-- Calibration application `scale · (v − offset)`. -/
def CalibrationParams.apply (c : CalibrationParams) (v : Fin 3 → ℚ) : Fin 3 → ℚ :=
  c.scale.mulVec (v - c.offset)

/-- Modelled from the spec: `ConfigError` raised for an invalid window. -/
inductive ConfigError where
  | invalidWindow

/-- Modelled from the spec: the sensor conditioner (moving-average filter):
a window size `W`, calibration parameters, and the ring of the last `W`
calibrated samples (most recent last). -/
structure MovingAverageFilter where
  window : ℕ
  cal : CalibrationParams
  ring : List (Fin 3 → ℚ)

/-- Modelled from the spec: construction validates the window (`W ≤ 0`
fails with `ConfigError`) and starts with an empty ring — the ring is not
persisted across re-instantiation unless explicitly serialized. -/
def mkFilter (w : ℕ) (cal : CalibrationParams) :
    Except ConfigError MovingAverageFilter :=
  if w = 0 then .error .invalidWindow else .ok ⟨w, cal, []⟩

/-- Component-wise mean of a list of vectors. -/
def meanVec (l : List (Fin 3 → ℚ)) : Fin 3 → ℚ :=
  fun i => (l.map fun v => v i).sum / (l.length : ℚ)

/-- Modelled from the spec: `push(raw)` applies calibration, appends to the
fixed-size ring of the last `W` samples (dropping the oldest beyond `W`),
and returns the component-wise mean of what is present. -/
def MovingAverageFilter.push (f : MovingAverageFilter) (raw : Fin 3 → ℚ) :
    MovingAverageFilter × (Fin 3 → ℚ) :=
  let v := f.cal.apply raw
  let ring := (f.ring ++ [v]).drop ((f.ring.length + 1) - f.window)
  (⟨f.window, f.cal, ring⟩, meanVec ring)

/-- Modelled from the spec (README): CLI `simulate` arguments — both
`--steps` and `--output` optional. -/
structure SimulateArgs where
  steps : Option ℕ
  output : Option String

/-- Where the trajectory JSON is written. -/
inductive OutputDest where
  | stdout
  | file (path : String)
  deriving DecidableEq

/-- Modelled from the spec: a deterministic simulated trajectory of `n`
points. -/
def simulateTrajectory (n : ℕ) : List LatLon :=
  List.map (fun i : ℕ => LatLon.mk ((i : ℚ) / 1000) ((i : ℚ) / 1000)) (List.range n)

/-- Modelled from the spec (README): the `simulate` command generates
`steps` points (default 10) and writes them to `--output`, defaulting to
stdout. -/
def runSimulate (a : SimulateArgs) : List LatLon × OutputDest :=
  (simulateTrajectory (a.steps.getD 10),
    match a.output with
    | none => .stdout
    | some p => .file p)

/-- The identity calibration used to instantiate the sensor theorem. -/
def calW : CalibrationParams := ⟨![0, 0, 0], 1⟩

end QmagNav

namespace QmagNav

/-- C6: a freshly constructed conditioner has an empty ring (state does not
survive re-instantiation unless explicitly serialized), so the first push
returns exactly the calibrated value of that single sample. -/
theorem fresh_filter_first_push (w : ℕ) (cal : CalibrationParams)
    (f : MovingAverageFilter) (raw : Fin 3 → ℚ) (h : mkFilter w cal = .ok f) :
    f.ring = [] ∧ (f.push raw).2 = cal.apply raw := by
  rw [mkFilter] at h
  by_cases hw : w = 0
  · rw [if_pos hw] at h
    cases h
  · rw [if_neg hw] at h
    cases h
    refine ⟨rfl, ?_⟩
    funext i
    have hd : (1 : ℕ) - w = 0 := by omega
    simp [MovingAverageFilter.push, meanVec, hd]

/-- Witness for C6: a window-3 filter with identity calibration. -/
theorem fresh_filter_first_push_witness :
    (⟨3, calW, []⟩ : MovingAverageFilter).ring = [] ∧
      ((⟨3, calW, []⟩ : MovingAverageFilter).push ![1, 2, 3]).2 =
        calW.apply ![1, 2, 3] :=
  fresh_filter_first_push 3 calW _ ![1, 2, 3] rfl

/-- C10: `simulate` with `--steps` omitted generates exactly 10 trajectory
points, and with `--output` omitted writes to stdout. -/
theorem simulate_defaults :
    (∀ out : Option String, (runSimulate ⟨none, out⟩).1.length = 10) ∧
      ∀ steps : Option ℕ, (runSimulate ⟨steps, none⟩).2 = .stdout := by
  constructor
  · intro out
    show (simulateTrajectory 10).length = 10
    rw [simulateTrajectory, List.length_map, List.length_range]
  · intro steps
    rfl

end QmagNav

namespace QmagNav

/-- Modelled from the spec: WGS-84 semi-major axis `a = 6378137.0` metres. -/
noncomputable def wgsA : ℝ := 6378137

/-- Modelled from the spec: WGS-84 flattening `f = 1/298.257223563`. -/
noncomputable def wgsF : ℝ := 1 / 298.257223563

/-- First eccentricity squared, `e² = f·(2 − f)`. -/
noncomputable def wgsE2 : ℝ := wgsF * (2 - wgsF)

/-- Degrees to radians. -/
noncomputable def deg2rad (d : ℝ) : ℝ := d * Real.pi / 180

/-- Radians to degrees. -/
noncomputable def rad2deg (r : ℝ) : ℝ := r * 180 / Real.pi

/-- Prime-vertical radius of curvature `N(φ) = a / √(1 − e²·sin²φ)`. -/
noncomputable def primeN (phi : ℝ) : ℝ :=
  wgsA / Real.sqrt (1 - wgsE2 * Real.sin phi ^ 2)

/-- Modelled from the spec: `to_ecef`, the standard WGS-84 forward
transform of the data model's 2-D (on-ellipsoid) `LatLon`:
`x = N·cosφ·cosλ`, `y = N·cosφ·sinλ`, `z = N·(1−e²)·sinφ`. -/
noncomputable def to_ecef (lat lon : ℝ) : ℝ × ℝ × ℝ :=
  (primeN (deg2rad lat) * Real.cos (deg2rad lat) * Real.cos (deg2rad lon),
   primeN (deg2rad lat) * Real.cos (deg2rad lat) * Real.sin (deg2rad lon),
   primeN (deg2rad lat) * (1 - wgsE2) * Real.sin (deg2rad lat))

/-- Modelled from the spec: `from_ecef`, the standard closed-form WGS-84
inverse for on-ellipsoid points: `φ = atan(z / ((1−e²)·√(x²+y²)))` — the
exact fixed point the spec's alternative Bowring iterate converges to on
the ellipsoid — and `λ = atan2(y, x)`, modelled by `Complex.arg` with the
standard `(−π, π]` range. -/
noncomputable def from_ecef (p : ℝ × ℝ × ℝ) : ℝ × ℝ :=
  (rad2deg (Real.arctan (p.2.2 / ((1 - wgsE2) * Real.sqrt (p.1 ^ 2 + p.2.1 ^ 2)))),
   rad2deg (Complex.arg (p.1 + p.2.1 * Complex.I)))

lemma wgsE2_mem : 0 < wgsE2 ∧ wgsE2 < 1 := by
  rw [wgsE2, wgsF]
  norm_num

lemma primeN_pos (phi : ℝ) : 0 < primeN phi := by
  have hs : Real.sin phi ^ 2 ≤ 1 := Real.sin_sq_le_one phi
  have hnn : 0 ≤ Real.sin phi ^ 2 := sq_nonneg _
  have h1 : 0 < 1 - wgsE2 * Real.sin phi ^ 2 := by
    nlinarith [wgsE2_mem.1, wgsE2_mem.2]
  rw [primeN]
  exact div_pos (by rw [wgsA]; norm_num) (Real.sqrt_pos.mpr h1)

end QmagNav

namespace QmagNav

/-- C7 (amended): away from the antimeridian seam, the WGS-84 round trip
is exact in the real-valued model, hence within the claimed 1e-6°: for
every `|lat| ≤ 89.9` and `-180 < lon ≤ 180`, `from_ecef (to_ecef L)`
returns `L` itself, so both coordinates agree within 1e-6°. -/
theorem latlon_ecef_round_trip (lat lon : ℝ) (hlat : |lat| ≤ 899/10)
    (hlon1 : -180 < lon) (hlon2 : lon ≤ 180) :
    (from_ecef (to_ecef lat lon)).1 = lat ∧
      (from_ecef (to_ecef lat lon)).2 = lon ∧
      |(from_ecef (to_ecef lat lon)).1 - lat| ≤ 1/1000000 ∧
      |(from_ecef (to_ecef lat lon)).2 - lon| ≤ 1/1000000 := by
  have hpi := Real.pi_pos
  obtain ⟨hlatL, hlatR⟩ := abs_le.mp hlat
  have hf1 : -(Real.pi/2) < deg2rad lat := by
    rw [deg2rad]
    nlinarith [mul_le_mul_of_nonneg_right hlatL hpi.le]
  have hf2 : deg2rad lat < Real.pi/2 := by
    rw [deg2rad]
    nlinarith [mul_le_mul_of_nonneg_right hlatR hpi.le]
  have hl1 : -Real.pi < deg2rad lon := by
    rw [deg2rad]
    nlinarith [mul_le_mul_of_nonneg_right hlon1.le hpi.le]
  have hl2 : deg2rad lon ≤ Real.pi := by
    rw [deg2rad]
    nlinarith [mul_le_mul_of_nonneg_right hlon2 hpi.le]
  have hcos : 0 < Real.cos (deg2rad lat) :=
    Real.cos_pos_of_mem_Ioo ⟨hf1, hf2⟩
  have hN : 0 < primeN (deg2rad lat) := primeN_pos _
  have hr : 0 < primeN (deg2rad lat) * Real.cos (deg2rad lat) := mul_pos hN hcos
  have he2 : (1:ℝ) - wgsE2 ≠ 0 := ne_of_gt (by linarith [wgsE2_mem.2])
  have hp : Real.sqrt
      ((primeN (deg2rad lat) * Real.cos (deg2rad lat) * Real.cos (deg2rad lon)) ^ 2 +
        (primeN (deg2rad lat) * Real.cos (deg2rad lat) * Real.sin (deg2rad lon)) ^ 2) =
      primeN (deg2rad lat) * Real.cos (deg2rad lat) := by
    have hsum :
        (primeN (deg2rad lat) * Real.cos (deg2rad lat) * Real.cos (deg2rad lon)) ^ 2 +
          (primeN (deg2rad lat) * Real.cos (deg2rad lat) * Real.sin (deg2rad lon)) ^ 2 =
          (primeN (deg2rad lat) * Real.cos (deg2rad lat)) ^ 2 := by
      have hsc := Real.sin_sq_add_cos_sq (deg2rad lon)
      nlinarith [hsc]
    rw [hsum, Real.sqrt_sq hr.le]
  have hlat' : (from_ecef (to_ecef lat lon)).1 = lat := by
    simp only [from_ecef, to_ecef]
    rw [hp]
    have harg : primeN (deg2rad lat) * (1 - wgsE2) * Real.sin (deg2rad lat) /
        ((1 - wgsE2) * (primeN (deg2rad lat) * Real.cos (deg2rad lat))) =
        Real.tan (deg2rad lat) := by
      rw [Real.tan_eq_sin_div_cos]
      field_simp
      ring
    rw [harg, Real.arctan_tan hf1 hf2, rad2deg, deg2rad]
    field_simp
  have hlon' : (from_ecef (to_ecef lat lon)).2 = lon := by
    simp only [from_ecef, to_ecef]
    have hz : ((primeN (deg2rad lat) * Real.cos (deg2rad lat) * Real.cos (deg2rad lon)
          : ℝ) : ℂ) +
        ((primeN (deg2rad lat) * Real.cos (deg2rad lat) * Real.sin (deg2rad lon)
          : ℝ) : ℂ) * Complex.I =
        ((primeN (deg2rad lat) * Real.cos (deg2rad lat) : ℝ) : ℂ) *
          (Complex.cos ((deg2rad lon : ℝ) : ℂ) +
            Complex.sin ((deg2rad lon : ℝ) : ℂ) * Complex.I) := by
      rw [← Complex.ofReal_cos, ← Complex.ofReal_sin]
      push_cast
      ring
    rw [hz, Complex.arg_mul_cos_add_sin_mul_I hr ⟨hl1, hl2⟩, rad2deg, deg2rad]
    field_simp
  refine ⟨hlat', hlon', ?_, ?_⟩
  · rw [hlat', sub_self, abs_zero]
    norm_num
  · rw [hlon', sub_self, abs_zero]
    norm_num

/-- Counterexample refuting C7 as stated: `lon = −180` is a valid
longitude of the data model and `|0| ≤ 89.9`, but `to_ecef` maps
`(0, −180)` and `(0, 180)` to the same ECEF point, so the inverse recovers
`+180`: the round trip differs from the input by 360°, not within 1e-6°. -/
theorem latlon_ecef_round_trip_cex :
    |(0:ℝ)| ≤ 899/10 ∧ -180 ≤ (-180:ℝ) ∧ (-180:ℝ) ≤ 180 ∧
      to_ecef 0 (-180) = to_ecef 0 180 ∧
      (from_ecef (to_ecef 0 (-180))).2 = 180 ∧
      ¬ |(from_ecef (to_ecef 0 (-180))).2 - (-180)| ≤ 1/1000000 := by
  have hd0 : deg2rad 0 = 0 := by rw [deg2rad]; ring
  have hdm : deg2rad (-180) = -Real.pi := by rw [deg2rad]; ring
  have hdp : deg2rad (180) = Real.pi := by rw [deg2rad]; ring
  have hN0 : primeN 0 = wgsA := by
    rw [primeN]
    simp [Real.sqrt_one]
  have hx : to_ecef 0 (-180) = (-wgsA, 0, 0) := by
    rw [to_ecef, hd0, hdm, hN0]
    norm_num [Real.cos_zero, Real.sin_zero, Real.cos_pi, Real.sin_pi]
  have hx2 : to_ecef 0 180 = (-wgsA, 0, 0) := by
    rw [to_ecef, hd0, hdp, hN0]
    norm_num [Real.cos_zero, Real.sin_zero, Real.cos_pi, Real.sin_pi]
  have hA : (0:ℝ) < wgsA := by rw [wgsA]; norm_num
  have harg : Complex.arg (((-wgsA : ℝ) : ℂ) + ((0:ℝ) : ℂ) * Complex.I) = Real.pi := by
    rw [show (((-wgsA : ℝ) : ℂ) + ((0:ℝ) : ℂ) * Complex.I) = ((-wgsA : ℝ) : ℂ) by
      push_cast; ring]
    exact Complex.arg_ofReal_of_neg (by linarith)
  have hlon' : (from_ecef (to_ecef 0 (-180))).2 = 180 := by
    rw [hx]
    simp only [from_ecef]
    rw [harg, rad2deg]
    field_simp
  refine ⟨by norm_num, by norm_num, by norm_num, hx.trans hx2.symm, hlon', ?_⟩
  rw [hlon']
  norm_num

/-- Witness for the amended C7 at the concrete point `(0, 0)`. -/
theorem latlon_ecef_round_trip_witness :
    (from_ecef (to_ecef 0 0)).1 = 0 ∧ (from_ecef (to_ecef 0 0)).2 = 0 ∧
      |(from_ecef (to_ecef 0 0)).1 - 0| ≤ 1/1000000 ∧
      |(from_ecef (to_ecef 0 0)).2 - 0| ≤ 1/1000000 :=
  latlon_ecef_round_trip 0 0 (by norm_num) (by norm_num) (by norm_num)

end QmagNav
